import Mathlib

/-!
# Verification of the ChibiOS `Util` bootloader-update engine

This file is a shallow embedding of the firmware-update core found in
`libraries/AP_HAL_ChibiOS/Util.cpp`:

* `Util::flash_bootloader`      (erase / write / retry orchestrator),
* `Util::get_persistent_params` (persistent-parameter serializer),
* `Util::load_persistent_params` (blob locator),
* `Util::apply_persistent_params` (blob parser / default injection).

Text is modelled as byte lists (`List Nat`), flash contents as functions
`Nat → Nat` from addresses to byte values, and the hardware collaborators
(flash device, ROMFS image store, scheduler) as oracles inside an
environment record.  Every flash-device call made by the source is
recorded as an event, so that call counts, ordering and state effects
can be stated and proved.
-/

/-- Model of `AP_Common/ExpandingString`.
Modelled from the spec: the expanding text buffer is an external
collaborator (its source is not part of the provided files); the spec
describes it as a growable buffer whose growth can fail, with a sticky
failure flag (`has_failed_allocation`).  `buf` is the accumulated byte
content and `failed` the sticky allocation-failure flag. -/
structure EString where
  buf : List Nat
  failed : Bool
deriving DecidableEq

/-- Model of `ExpandingString` growth (`printf`/`append`): a no-op once
the sticky failure flag is set; otherwise either the append fails
(allocation failure, per the oracle) or the data is appended. -/
def EString.appendF (e : EString) (data : List Nat) (failNow : Bool) : EString :=
  if e.failed then e
  else if failNow then { e with failed := true }
  else { e with buf := e.buf ++ data }

/-- The literal header token `"{{PERSISTENT_START_V1}}\n"` (24 bytes),
`static const char *persistent_header` in the source. -/
def persistent_header : List Nat :=
  "\x7b\x7bPERSISTENT_START_V1\x7d\x7d\n".toList.map Char.toNat

/-- The space-padding loop of `Util::get_persistent_params`:
`while (!str.has_failed_allocation() && str.get_length() % 32 != 0) str.append(" ", 1)`.
Each iteration appends one ASCII space (byte 32); the oracle decides
whether that allocation fails.  The loop appends at most 31 spaces
(`(32 - len % 32) % 32 ≤ 31`), so with the fuel 32 used at the call site
the fuel bound is never the reason the loop stops (`padLoop_exits`). -/
def padLoop : Nat → EString → List Bool → EString
  | 0, e, _ => e
  | fuel + 1, e, oracle =>
    if e.failed then e
    else if e.buf.length % 32 = 0 then e
    else
      match oracle with
      | [] => padLoop fuel { e with buf := e.buf ++ [32] } []
      | true :: _ => { e with failed := true }
      | false :: rest => padLoop fuel { e with buf := e.buf ++ [32] } rest

/-- `Util::get_persistent_params(ExpandingString &str)`: print the header,
append the inertial-sensor parameter text (`insData`, the text contributed
by `ins->get_persistent_params`), fail if allocation failed or nothing
beyond the header was produced, otherwise pad with spaces to a multiple
of 32.  Returns the source's `bool` result together with the final
string state (which the caller keeps either way). -/
def get_persistent_params (insData : List Nat) (oracle : List Bool) : Bool × EString :=
  let e1 := EString.appendF { buf := [], failed := false } persistent_header (oracle.getD 0 false)
  let e2 := e1.appendF insData (oracle.getD 1 false)
  if e2.failed || e2.buf.length ≤ persistent_header.length then
    (false, e2)
  else
    let e3 := padLoop 32 e2 (oracle.drop 2)
    (!e3.failed, e3)

/-- The spec-level `serialize(config) -> blob | empty` view of
`get_persistent_params`: the blob when the call succeeds, the empty
signal (length 0) when it reports failure. -/
def serializeBlob (insData : List Nat) (oracle : List Bool) : List Nat :=
  let r := get_persistent_params insData oracle
  if r.1 then r.2.buf else []

/-- `Util::FlashBootloader`, the externally visible outcome of one update
attempt. -/
inductive FlashBootloader where
  | OK
  | NO_CHANGE
  | FAIL
  | NOT_AVAILABLE
deriving DecidableEq

/-- One observable call made by `flash_bootloader` to its collaborators.
`memRead` records the read-only accesses (the `memcmp` against the sector
base and the `memmem` scan of page 0); the remaining constructors record
the mutating flash calls, the image release, and the scheduler calls.
The fire-and-forget `Debug` diagnostics are not modelled. -/
inductive FlashEvent where
  | memRead (addr len : Nat)
  | erasePage (page : Nat)
  | write (addr : Nat) (data : List Nat)
  | keepUnlocked (b : Bool)
  | romfsFree
  | expectDelay (ms : Nat)
  | delay (ms : Nat)
deriving DecidableEq

/-- Environment of one `flash_bootloader` run: the collaborators the
source consults.  `romfs` is the result of `AP_ROMFS::find_decompress`
(buffer bytes and reported size); `pageSizes` is the flash page-size
table (`getpagesize(i)`, 0 past the end); `eraseOk`/`writeOk` are the
device's answers to `erasepage` (by page) and `write` (by call order);
`mem` is the resident flash content by address; `saveParams` is the
`HAL_ENABLE_SAVE_PERSISTENT_PARAMS` build flag; `insData` is the text the
inertial sensor contributes to the parameter blob; `allocOracle` and
`loadAllocFail` drive `ExpandingString` allocation failures. -/
structure Env where
  romfs : Option (List Nat × Nat)
  pageAddr0 : Nat
  pageSizes : List Nat
  eraseOk : Nat → Bool
  writeOk : Nat → Bool
  mem : Nat → Nat
  saveParams : Bool
  insData : List Nat
  allocOracle : List Bool
  loadAllocFail : Bool

/-- `hal.flash->getpagesize(i)`: 0 signals that the page table is
exhausted. -/
def Env.getpagesize (env : Env) (i : Nat) : Nat := env.pageSizes.getD i 0

/-- `fw_size = (fw_size + 31U) & ~31U` on `uint32_t`: round up to a
multiple of 32 (with 32-bit wrap-around). -/
def alignUp32 (n : Nat) : Nat := ((n + 31) % 4294967296) &&& 4294967264

/-- Value of an `int32_t` expression after conversion to `uint32_t`
(C usual arithmetic conversions). -/
def u32ofInt (i : Int) : Nat := (i % 4294967296).toNat

/-- `uint32_t` subtraction `a - b` (wraps modulo 2^32). -/
def usub32 (a b : Nat) : Nat := (a + (4294967296 - b % 4294967296)) % 4294967296

/-- The `len` bytes passed to `hal.flash->write(addr, buf, len)`: reads
past the end of the decompressed buffer (the up-to-31 alignment padding
bytes) are modelled as 0. -/
def writtenBytes (buf : List Nat) (n : Nat) : List Nat :=
  (List.range n).map (fun i => buf.getD i 0)

/-- `memcmp(fw, (const void*)addr, fw_size) == 0`: the candidate image is
byte-identical to the first `n` resident bytes at `addr`. -/
def imageMatches (buf : List Nat) (mem : Nat → Nat) (addr n : Nat) : Bool :=
  (List.range n).all (fun i => buf.getD i 0 == mem (addr + i))

/-- Does the header token occur in flash at offset `o` from `addr`? -/
def headerMatchAt (mem : Nat → Nat) (addr o : Nat) : Bool :=
  (List.range persistent_header.length).all
    (fun i => mem (addr + o + i) == persistent_header.getD i 0)

/-- `memmem(addr, size, persistent_header, strlen(persistent_header))`:
offset of the first in-bounds occurrence of the header token. -/
def findHeader (mem : Nat → Nat) (addr size : Nat) : Option Nat :=
  (List.range size).find?
    (fun o => decide (o + persistent_header.length ≤ size) && headerMatchAt mem addr o)

/-- `Util::load_persistent_params(ExpandingString &str)`: scan page 0 for
the header token and return everything from it to the end of the page;
`none` when the token is absent or the append's allocation fails. -/
def load_persistent_params (env : Env) : Option (List Nat) :=
  let addr := env.pageAddr0
  let size := env.getpagesize 0
  match findHeader env.mem addr size with
  | some o =>
      if env.loadAllocFail then none
      else some ((List.range (size - o)).map (fun i => env.mem (addr + o + i)))
  | none => none

/-- A C string: the bytes up to (excluding) the first NUL. -/
def cstr (l : List Nat) : List Nat := l.takeWhile (fun c => !(c == 0))

/-- `strcmp(a, b) == 0` on NUL-terminated strings. -/
def strcmpEq (a b : List Nat) : Bool := cstr a == cstr b

/-- The up-to-date decision of `flash_bootloader` (source lines 217-239):
byte-compare the image, and, when parameter preservation is compiled in,
serialize the candidate parameter blob, check it fits in the space after
the image and compare it with the blob currently locatable in page 0.
Returns `(uptodate, persistent_params bytes, events)`.  Note that the
caller keeps `persistent_params` even when `get_persistent_params`
reported failure, exactly as the source does. -/
def decisionStep (env : Env) (fwBuf : List Nat) (fwSize : Nat) :
    Bool × List Nat × List FlashEvent :=
  let addr := env.pageAddr0
  let imgSame := imageMatches fwBuf env.mem addr fwSize
  if env.saveParams then
    -- const int32_t space_available = hal.flash->getpagesize(0) - int32_t(fw_size);
    let spaceAvailable : Int := (env.getpagesize 0 : Int) - (fwSize : Int)
    let r := get_persistent_params env.insData env.allocOracle
    let pp := r.2.buf
    -- `space_available >= persistent_params.get_length()` compares
    -- `int32_t` with `uint32_t`, so C converts the left side to uint32:
    -- a negative space wraps to a huge unsigned value and "fits".
    let fits := decide (u32ofInt spaceAvailable ≥ pp.length % 4294967296)
    let loadTried := r.1 && fits
    let changed := loadTried &&
      (match load_persistent_params env with
       | none => true
       | some old => !strcmpEq pp old)
    (imgSame && !changed, pp,
      [FlashEvent.memRead addr fwSize] ++
        (if loadTried then [FlashEvent.memRead addr (env.getpagesize 0)] else []))
  else
    (imgSame, [], [FlashEvent.memRead addr fwSize])

/-- The erase loop of `flash_bootloader` (source lines 249-265):
`while (erased_size < fw_size)` walk pages from `page`, failing when the
page table is exhausted (`getpagesize == 0`) or an erase call fails.
Returns whether the loop completed, and its events.  As in the source,
the page counter is a `uint8_t` (`erase_page++` wraps 255 to 0) and the
accumulator a `uint32_t` (`erased_size += page_size` wraps modulo 2^32).
The loop is run with `fwSize` iterations of fuel: every executed
iteration adds the page's non-zero size to the accumulator, so as long
as no single page size reaches `2^32 - fwSize` bytes the accumulator
never wraps, grows by at least 1 per iteration, and the fuel bound is
never the reason the loop stops (the invariants of `eraseLoop_spec` hold
at the top-level call `eraseLoop env fwSize fwSize 0 0`); in the
accumulator-wrapping regime the source loop itself need not terminate,
and the fuel exit stands in for that unreachable case. -/
def eraseLoop (env : Env) (fwSize : Nat) : Nat → Nat → Nat → Bool × List FlashEvent
  | 0, _, _ => (true, [])
  | fuel + 1, erasedSize, page =>
    if erasedSize < fwSize then
      let psize := env.getpagesize page
      if psize = 0 then (false, [])
      else if env.eraseOk page = false then
        (false, [FlashEvent.expectDelay 1000, FlashEvent.erasePage page])
      else
        let r := eraseLoop env fwSize fuel ((erasedSize + psize) % 4294967296)
          ((page + 1) % 256)
        (r.1, [FlashEvent.expectDelay 1000, FlashEvent.erasePage page] ++ r.2)
    else (true, [])

/-- The write-retry loop of `flash_bootloader` (source lines 270-295),
by remaining attempts (`fuel`, starting at `max_attempts = 10`) and the
index of the next `write` call in `env.writeOk`.  On a failed image
write: 100 ms backoff and retry.  On success: optionally write the
parameter blob at `getpagesize(0) - len` (its boolean result is not
consulted), relock, release the image and return OK.  After the last
failure: relock, release the image and return FAIL. -/
def writeLoop (env : Env) (fwData pp : List Nat) :
    Nat → Nat → FlashBootloader × List FlashEvent
  | 0, _ =>
      (FlashBootloader.FAIL, [FlashEvent.keepUnlocked false, FlashEvent.romfsFree])
  | fuel + 1, wIdx =>
      let addr := env.pageAddr0
      let evs := [FlashEvent.expectDelay 1000, FlashEvent.write addr fwData]
      if env.writeOk wIdx = false then
        let r := writeLoop env fwData pp fuel (wIdx + 1)
        (r.1, evs ++ [FlashEvent.delay 100] ++ r.2)
      else
        let pevs :=
          if env.saveParams && !(pp.length == 0) then
            [FlashEvent.write (addr + usub32 (env.getpagesize 0) pp.length) pp]
          else []
        (FlashBootloader.OK,
          evs ++ pevs ++ [FlashEvent.keepUnlocked false, FlashEvent.romfsFree])

/-- The write phase: `hal.flash->keep_unlocked(true)` followed by the
retry loop (which relocks on every exit). -/
def writePhase (env : Env) (fwData pp : List Nat) : FlashBootloader × List FlashEvent :=
  let r := writeLoop env fwData pp 10 0
  (r.1, FlashEvent.keepUnlocked true :: r.2)

/-- `Util::flash_bootloader()`, assembled from the phases above:
image lookup, alignment, up-to-date decision, erase loop, write loop.
Returns the result and the full event trace. -/
def flash_bootloader (env : Env) : FlashBootloader × List FlashEvent :=
  match env.romfs with
  | none => (FlashBootloader.NOT_AVAILABLE, [FlashEvent.expectDelay 11000])
  | some fw =>
    let fwSize := alignUp32 fw.2
    let d := decisionStep env fw.1 fwSize
    if d.1 then
      (FlashBootloader.NO_CHANGE,
        FlashEvent.expectDelay 11000 :: d.2.2 ++ [FlashEvent.romfsFree])
    else
      let er := eraseLoop env fwSize fwSize 0 0
      if er.1 = false then
        (FlashBootloader.FAIL,
          FlashEvent.expectDelay 11000 :: d.2.2 ++ er.2 ++ [FlashEvent.romfsFree])
      else
        let w := writePhase env (writtenBytes fw.1 fwSize) d.2.1
        (w.1, FlashEvent.expectDelay 11000 :: d.2.2 ++ er.2 ++ w.2)

/-- Abstract state of the flash device: byte content by address and the
write-unlock gate. -/
structure FlashState where
  mem : Nat → Nat
  unlocked : Bool

/-- Sum of the page sizes of `k` consecutive pages starting at `p`. -/
def sumSizes (env : Env) (p k : Nat) : Nat :=
  ((List.range' p k).map env.getpagesize).sum

/-- Sum of the sizes accumulated by `k` erase-loop iterations starting
at page counter `p`: the `i`-th iteration reads the size of page
`(p + i) % 256` (the wrapped `uint8_t` counter). -/
def sumSizesMod (env : Env) (p k : Nat) : Nat :=
  ((List.range k).map (fun i => env.getpagesize ((p + i) % 256))).sum

/-- Base address of page `p` (pages are laid out consecutively from the
sector base). -/
def pageBase (env : Env) (p : Nat) : Nat := env.pageAddr0 + sumSizes env 0 p

/-- Effect of one event on the flash device: writes store their bytes,
erases fill the page with 0xff, `keep_unlocked` toggles the gate, and
the read-only / scheduler events leave the state unchanged. -/
def applyEvent (env : Env) (st : FlashState) : FlashEvent → FlashState
  | FlashEvent.write a data =>
      { st with mem := fun x =>
          if a ≤ x ∧ x < a + data.length then data.getD (x - a) 0 else st.mem x }
  | FlashEvent.erasePage p =>
      { st with mem := fun x =>
          if pageBase env p ≤ x ∧ x < pageBase env p + env.getpagesize p then 255
          else st.mem x }
  | FlashEvent.keepUnlocked b => { st with unlocked := b }
  | _ => st

/-- Run a trace of events against a flash state. -/
def runTrace (env : Env) (st : FlashState) (tr : List FlashEvent) : FlashState :=
  tr.foldl (applyEvent env) st

@[simp]
def isEraseEv : FlashEvent → Bool
  | FlashEvent.erasePage _ => true
  | _ => false

@[simp]
def isWriteEv : FlashEvent → Bool
  | FlashEvent.write _ _ => true
  | _ => false

@[simp]
def isUnlockEv : FlashEvent → Bool
  | FlashEvent.keepUnlocked _ => true
  | _ => false

@[simp]
def isFreeEv : FlashEvent → Bool
  | FlashEvent.romfsFree => true
  | _ => false

/-- The fixed ~100 ms backoff events (`hal.scheduler->delay(100)`). -/
@[simp]
def isDelay100 : FlashEvent → Bool
  | FlashEvent.delay ms => ms == 100
  | _ => false

/-- Is this a flash write starting at address `a`? -/
@[simp]
def writeAt (a : Nat) : FlashEvent → Bool
  | FlashEvent.write x _ => x == a
  | _ => false

def eraseCount (tr : List FlashEvent) : Nat := tr.countP isEraseEv
def writeCount (tr : List FlashEvent) : Nat := tr.countP isWriteEv
def freeCount (tr : List FlashEvent) : Nat := tr.countP isFreeEv
def delayCount (tr : List FlashEvent) : Nat := tr.countP isDelay100
def eraseEvents (tr : List FlashEvent) : List FlashEvent := tr.filter isEraseEv

/-- The sequence of gate toggles in a trace. -/
def unlockEvents (tr : List FlashEvent) : List Bool :=
  tr.filterMap (fun e => match e with
    | FlashEvent.keepUnlocked b => some b
    | _ => none)

/-- Modelled from the spec: the key-value configuration store behind
`AP_Param::set_default_by_name` is an external collaborator whose source
is not among the provided files; the spec describes it as
`set_default_if_unset(name, value) -> bool`.  `explicits` are the
parameters with an explicitly set value, `defaults` the injected
defaults.  `V` abstracts the numeric value type produced by `atof`. -/
structure ParamStore (V : Type) where
  explicits : List (List Nat × V)
  defaults : List (List Nat × V)
deriving DecidableEq

/-- Modelled from the spec: `set_default_if_unset(name, value) -> bool` —
"asks the configuration store to set it only if no explicit value has
been set for that name yet".  Returns the updated store and whether the
default was injected. -/
def set_default_by_name {V : Type} (st : ParamStore V) (name : List Nat) (v : V) :
    ParamStore V × Bool :=
  if st.explicits.any (fun p => p.1 == name) then (st, false)
  else ({ st with defaults := (name, v) :: st.defaults }, true)

/-- Look an injected default up by name. -/
def lookupDefault {V : Type} (st : ParamStore V) (name : List Nat) : Option V :=
  (st.defaults.find? (fun p => p.1 == name)).map Prod.snd

/-- The token sequence produced by the `strtok_r(s, "\n", &saveptr)` loop:
the maximal non-empty runs between newline bytes. -/
def strtokNL (s : List Nat) : List (List Nat) :=
  (s.splitOn 10).filter (fun t => !t.isEmpty)

/-- `strchr(p, '=')` followed by the in-place split: the bytes before the
first `'='` (byte 61) and the bytes after it; `none` when the record
contains no `'='`. -/
def splitEq (tok : List Nat) : Option (List Nat × List Nat) :=
  let name := tok.takeWhile (fun c => !(c == 61))
  if name.length = tok.length then none
  else some (name, tok.drop (name.length + 1))

/-- One iteration of the `apply_persistent_params` token loop: skip a
record without `'='`; otherwise parse the value (via the abstract `atof`)
and ask the store to inject it as a default, counting successes. -/
def applyToken {V : Type} (atof : List Nat → V) (sc : ParamStore V × Nat)
    (tok : List Nat) : ParamStore V × Nat :=
  match splitEq tok with
  | none => sc
  | some nv =>
      let r := set_default_by_name sc.1 nv.1 (atof nv.2)
      (r.1, if r.2 then sc.2 + 1 else sc.2)

/-- `Util::apply_persistent_params` on an already-located blob: skip the
header, tokenize the NUL-terminated remainder on newlines, and apply
each record.  Returns the store and the applied count. -/
def applyBlob {V : Type} (atof : List Nat → V) (st : ParamStore V)
    (blob : List Nat) : ParamStore V × Nat :=
  (strtokNL (cstr (blob.drop persistent_header.length))).foldl (applyToken atof) (st, 0)

/-- `Util::apply_persistent_params()`: load the blob from the bootloader
sector (silently doing nothing when it is absent) and apply it. -/
def apply_persistent_params {V : Type} (atof : List Nat → V) (env : Env)
    (st : ParamStore V) : ParamStore V × Nat :=
  match load_persistent_params env with
  | none => (st, 0)
  | some blob => applyBlob atof st blob

/-- Trace of `k` iterations of the erase loop starting at page counter
`p`: scheduler notification then page erase, per iteration, the `uint8_t`
page counter wrapping modulo 256. -/
def pagesTrace (p k : Nat) : List FlashEvent :=
  match k with
  | 0 => []
  | k + 1 =>
    FlashEvent.expectDelay 1000 :: FlashEvent.erasePage p :: pagesTrace ((p + 1) % 256) k

/-- All-zero resident flash. -/
def memZero : Nat → Nat := fun _ => 0

/-- Concrete run: no image in the ROMFS store. -/
def envNoImage : Env :=
  ⟨none, 0, [32], fun _ => true, fun _ => true, memZero, false, [], [], false⟩

/-- Concrete run: 2-byte image already resident (aligned compare over 32
bytes matches), parameter preservation compiled out. -/
def envUpToDate : Env :=
  ⟨some ([3, 3], 2), 0, [32], fun _ => true, fun _ => true,
    fun x => if x < 2 then 3 else 0, false, [], [], false⟩

/-- Concrete run: image differs, erase succeeds, the first 9 write calls
fail and the 10th succeeds. -/
def envNinthWrite : Env :=
  ⟨some ([5], 1), 0, [32], fun _ => true, fun i => i == 9, memZero, false, [], [], false⟩

/-- Concrete run: image differs, erase succeeds, every write call fails. -/
def envAllWritesFail : Env :=
  ⟨some ([5], 1), 0, [32], fun _ => true, fun _ => false, memZero, false, [], [], false⟩

/-- Concrete run: image matches over the 64-byte aligned size, parameter
preservation on, page 0 is only 32 bytes (so the remaining space
`32 - 64` is negative), the serialized blob (32 bytes, from the record
`"x=1\n"`) differs from page 0 (no header resident), every erase fails. -/
def envNegativeSpace : Env :=
  ⟨some (List.replicate 33 0, 33), 0, [32], fun _ => false, fun _ => true,
    memZero, true, [120, 61, 49, 10], [], false⟩

/-- Concrete run: 30-byte image differs from resident, parameter
preservation on with a 32-byte blob from the record `"x=1\n"`, page 0 is
96 bytes, erase and every write succeed. -/
def envBlobAtEnd : Env :=
  ⟨some (List.replicate 30 1, 30), 0, [96], fun _ => true, fun _ => true,
    memZero, true, [120, 61, 49, 10], [], false⟩

-- ## Theorems

theorem padLoop_extends : ∀ (fuel : Nat) (e : EString) (oracle : List Bool),
    ∃ t, (padLoop fuel e oracle).buf = e.buf ++ t := by
  intro fuel
  induction fuel with
  | zero => intro e o; exact ⟨[], by simp [padLoop]⟩
  | succ fuel ih =>
      intro e o
      obtain ⟨b, f⟩ := e
      by_cases hf : f = true
      · exact ⟨[], by simp [padLoop, hf]⟩
      · have hf' : f = false := by simpa using hf
        subst hf'
        by_cases hm : b.length % 32 = 0
        · exact ⟨[], by simp [padLoop, hm]⟩
        · cases o with
          | nil =>
              obtain ⟨t, ht⟩ := ih ⟨b ++ [32], false⟩ []
              refine ⟨32 :: t, ?_⟩
              simp only [padLoop, hm, if_false, Bool.false_eq_true]
              simp only at ht
              rw [ht]
              simp
          | cons ob rest =>
              cases ob with
              | true => exact ⟨[], by simp [padLoop, hm]⟩
              | false =>
                  obtain ⟨t, ht⟩ := ih ⟨b ++ [32], false⟩ rest
                  refine ⟨32 :: t, ?_⟩
                  simp only [padLoop, hm, if_false, Bool.false_eq_true]
                  simp only at ht
                  rw [ht]
                  simp

theorem padLoop_exits : ∀ (fuel : Nat) (e : EString) (oracle : List Bool),
    (32 - e.buf.length % 32) % 32 ≤ fuel →
    (padLoop fuel e oracle).failed = true ∨ (padLoop fuel e oracle).buf.length % 32 = 0 := by
  intro fuel
  induction fuel with
  | zero =>
      intro e o h
      right
      have : padLoop 0 e o = e := rfl
      rw [this]
      omega
  | succ fuel ih =>
      intro e o h
      obtain ⟨b, f⟩ := e
      by_cases hf : f = true
      · left; simp [padLoop, hf]
      · have hf' : f = false := by simpa using hf
        subst hf'
        by_cases hm : b.length % 32 = 0
        · right; simp [padLoop, hm]
        · simp only at h
          have hrec : (32 - (b ++ [32]).length % 32) % 32 ≤ fuel := by
            simp only [List.length_append, List.length_cons, List.length_nil]
            omega
          cases o with
          | nil =>
              have := ih ⟨b ++ [32], false⟩ [] hrec
              simpa [padLoop, hm] using this
          | cons ob rest =>
              cases ob with
              | true => left; simp [padLoop, hm]
              | false =>
                  have := ih ⟨b ++ [32], false⟩ rest hrec
                  simpa [padLoop, hm] using this

theorem gpp_fail0 (insData : List Nat) (oracle : List Bool)
    (h : oracle.getD 0 false = true) :
    get_persistent_params insData oracle = (false, ⟨[], true⟩) := by
  rw [List.getD_eq_getElem?_getD] at h
  simp [get_persistent_params, EString.appendF, h]

theorem gpp_fail1 (insData : List Nat) (oracle : List Bool)
    (h0 : oracle.getD 0 false = false) (h1 : oracle.getD 1 false = true) :
    get_persistent_params insData oracle = (false, ⟨persistent_header, true⟩) := by
  rw [List.getD_eq_getElem?_getD] at h0 h1
  simp [get_persistent_params, EString.appendF, h0, h1]

theorem gpp_ok_oracle (insData : List Nat) (oracle : List Bool)
    (h0 : oracle.getD 0 false = false) (h1 : oracle.getD 1 false = false) :
    get_persistent_params insData oracle =
      (if insData = [] then (false, ⟨persistent_header, false⟩)
       else
         ((!(padLoop 32 ⟨persistent_header ++ insData, false⟩ (oracle.drop 2)).failed),
           padLoop 32 ⟨persistent_header ++ insData, false⟩ (oracle.drop 2))) := by
  rw [List.getD_eq_getElem?_getD] at h0 h1
  by_cases hi : insData = []
  · subst hi
    simp [get_persistent_params, EString.appendF, h0, h1]
  · have hlen : ¬((persistent_header ++ insData).length ≤ persistent_header.length) := by
      simp only [List.length_append]
      have : insData.length ≠ 0 := by simpa [List.length_eq_zero] using hi
      omega
    simp [get_persistent_params, EString.appendF, h0, h1, hi, hlen]

theorem gpp_buf_shape (insData : List Nat) (oracle : List Bool) :
    (get_persistent_params insData oracle).2.buf = [] ∨
    ∃ t, (get_persistent_params insData oracle).2.buf = persistent_header ++ t := by
  cases h0 : oracle.getD 0 false with
  | true => left; rw [gpp_fail0 insData oracle h0]
  | false =>
      cases h1 : oracle.getD 1 false with
      | true => right; rw [gpp_fail1 insData oracle h0 h1]; exact ⟨[], by simp⟩
      | false =>
          right
          rw [gpp_ok_oracle insData oracle h0 h1]
          by_cases hi : insData = []
          · simp only [hi, if_true]
            exact ⟨[], by simp⟩
          · simp only [hi, if_false]
            obtain ⟨t, ht⟩ := padLoop_extends 32 ⟨persistent_header ++ insData, false⟩ (oracle.drop 2)
            simp only at ht
            exact ⟨insData ++ t, by simp [ht]⟩

theorem gpp_true_props (insData : List Nat) (oracle : List Bool)
    (h : (get_persistent_params insData oracle).1 = true) :
    (get_persistent_params insData oracle).2.failed = false ∧
    (get_persistent_params insData oracle).2.buf.length % 32 = 0 ∧
    persistent_header.length < (get_persistent_params insData oracle).2.buf.length := by
  cases h0 : oracle.getD 0 false with
  | true => rw [gpp_fail0 insData oracle h0] at h; exact absurd h (by simp)
  | false =>
      cases h1 : oracle.getD 1 false with
      | true => rw [gpp_fail1 insData oracle h0 h1] at h; exact absurd h (by simp)
      | false =>
          rw [gpp_ok_oracle insData oracle h0 h1] at h ⊢
          by_cases hi : insData = []
          · rw [if_pos hi] at h; exact absurd h (by simp)
          · rw [if_neg hi] at h ⊢
            simp only [Bool.not_eq_true'] at h
            refine ⟨h, ?_, ?_⟩
            · rcases padLoop_exits 32 ⟨persistent_header ++ insData, false⟩ (oracle.drop 2) (by omega) with hd | hd
              · rw [h] at hd; exact absurd hd (by simp)
              · simpa using hd
            · obtain ⟨t, ht⟩ := padLoop_extends 32 ⟨persistent_header ++ insData, false⟩ (oracle.drop 2)
              simp only at ht
              simp only [ht, List.length_append]
              have : insData.length ≠ 0 := by simpa [List.length_eq_zero] using hi
              omega

theorem gpp_empty (oracle : List Bool) :
    (get_persistent_params [] oracle).1 = false := by
  cases h0 : oracle.getD 0 false with
  | true => rw [gpp_fail0 [] oracle h0]
  | false =>
      cases h1 : oracle.getD 1 false with
      | true => rw [gpp_fail1 [] oracle h0 h1]
      | false => rw [gpp_ok_oracle [] oracle h0 h1]; simp

/-- C7: the persistent-parameter serializer yields the empty signal when
the configuration contributes nothing beyond the header or when buffer
growth fails, and every non-empty blob it yields has a length that is a
multiple of 32 and strictly greater than the header token length. -/
theorem serialize_blob_invariants (insData : List Nat) (oracle : List Bool) :
    (insData = [] → serializeBlob insData oracle = []) ∧
    ((get_persistent_params insData oracle).2.failed = true →
       serializeBlob insData oracle = []) ∧
    (serializeBlob insData oracle ≠ [] →
       (serializeBlob insData oracle).length % 32 = 0 ∧
       persistent_header.length < (serializeBlob insData oracle).length) := by
  refine ⟨?_, ?_, ?_⟩
  · intro hi
    subst hi
    simp [serializeBlob, gpp_empty oracle]
  · intro hf
    cases hr : (get_persistent_params insData oracle).1 with
    | false => simp [serializeBlob, hr]
    | true =>
        obtain ⟨hok, -, -⟩ := gpp_true_props insData oracle hr
        rw [hok] at hf
        exact absurd hf (by simp)
  · intro hne
    simp only [serializeBlob] at hne ⊢
    cases hr : (get_persistent_params insData oracle).1 with
    | false => rw [hr] at hne; simp at hne
    | true =>
        obtain ⟨-, hmod, hlen⟩ := gpp_true_props insData oracle hr
        simpa using ⟨hmod, hlen⟩

theorem sumSizes_zero (env : Env) (p : Nat) : sumSizes env p 0 = 0 := rfl

theorem sumSizes_succ (env : Env) (p k : Nat) :
    sumSizes env p (k + 1) = env.getpagesize p + sumSizes env (p + 1) k := by
  simp [sumSizes, List.range'_succ]

theorem pagesTrace_counts (k : Nat) : ∀ p,
    writeCount (pagesTrace p k) = 0 ∧ freeCount (pagesTrace p k) = 0 ∧
    delayCount (pagesTrace p k) = 0 ∧ unlockEvents (pagesTrace p k) = [] ∧
    (pagesTrace p k).filter isWriteEv = [] ∧
    (pagesTrace p k).filter isUnlockEv = [] := by
  induction k with
  | zero => intro p; exact ⟨rfl, rfl, rfl, rfl, rfl, rfl⟩
  | succ k ih =>
      intro p
      obtain ⟨h1, h2, h3, h4, h5, h6⟩ := ih ((p + 1) % 256)
      refine ⟨?_, ?_, ?_, ?_, ?_, ?_⟩
      · simpa [pagesTrace, writeCount, List.countP_cons, isWriteEv] using h1
      · simpa [pagesTrace, freeCount, List.countP_cons, isFreeEv] using h2
      · simpa [pagesTrace, delayCount, List.countP_cons, isDelay100] using h3
      · simpa [pagesTrace, unlockEvents, List.filterMap_cons] using h4
      · simpa [pagesTrace, List.filter, isWriteEv] using h5
      · simpa [pagesTrace, List.filter, isUnlockEv] using h6

theorem pagesTrace_eraseEvents (k : Nat) : ∀ p, p < 256 →
    eraseEvents (pagesTrace p k) =
      (List.range k).map (fun i => FlashEvent.erasePage ((p + i) % 256)) := by
  induction k with
  | zero => intro p _; rfl
  | succ k ih =>
      intro p hp
      have hrec := ih ((p + 1) % 256) (Nat.mod_lt _ (by omega))
      simp only [pagesTrace, eraseEvents, List.filter, List.range_succ_eq_map,
        List.map_cons, List.map_map]
      rw [show isEraseEv (FlashEvent.expectDelay 1000) = false from rfl,
          show isEraseEv (FlashEvent.erasePage p) = true from rfl]
      simp only [eraseEvents] at hrec
      rw [hrec]
      refine congrArg₂ List.cons ?_ ?_
      · rw [Nat.add_zero, Nat.mod_eq_of_lt hp]
      · refine List.map_congr_left ?_
        intro i _
        simp only [Function.comp]
        rw [Nat.mod_add_mod]
        congr 1
        omega

theorem sumSizesMod_zero (env : Env) (p : Nat) : sumSizesMod env p 0 = 0 := rfl

theorem sumSizesMod_succ (env : Env) (p k : Nat) :
    sumSizesMod env p (k + 1) =
      env.getpagesize (p % 256) + sumSizesMod env ((p + 1) % 256) k := by
  unfold sumSizesMod
  rw [List.range_succ_eq_map]
  simp only [List.map_cons, List.map_map, List.sum_cons, Nat.add_zero]
  congr 1
  refine congrArg List.sum ?_
  refine List.map_congr_left fun i _ => ?_
  simp only [Function.comp]
  rw [Nat.mod_add_mod]
  congr 2
  omega

theorem eraseLoop_trace (env : Env) (n : Nat) : ∀ (fuel es p : Nat),
    ∃ k, (eraseLoop env n fuel es p).2 = pagesTrace p k := by
  intro fuel
  induction fuel with
  | zero => intro es p; exact ⟨0, rfl⟩
  | succ fuel ih =>
      intro es p
      by_cases hlt : es < n
      · by_cases hps : env.getpagesize p = 0
        · exact ⟨0, by simp [eraseLoop, hlt, hps, pagesTrace]⟩
        · by_cases hek : env.eraseOk p = false
          · exact ⟨1, by simp [eraseLoop, hlt, hps, hek, pagesTrace]⟩
          · obtain ⟨k, htr⟩ := ih ((es + env.getpagesize p) % 4294967296) ((p + 1) % 256)
            refine ⟨k + 1, ?_⟩
            have hrw : eraseLoop env n (fuel + 1) es p =
                ((eraseLoop env n fuel ((es + env.getpagesize p) % 4294967296)
                    ((p + 1) % 256)).1,
                  FlashEvent.expectDelay 1000 :: FlashEvent.erasePage p ::
                    (eraseLoop env n fuel ((es + env.getpagesize p) % 4294967296)
                      ((p + 1) % 256)).2) := by
              simp [eraseLoop, hlt, hps, hek]
            rw [hrw]
            simpa [pagesTrace] using htr
      · exact ⟨0, by simp [eraseLoop, hlt, pagesTrace]⟩

theorem eraseLoop_spec (env : Env) (n : Nat)
    (hpages : ∀ i, i < 256 → env.getpagesize i < 4294967296 - n) :
    ∀ (fuel es p : Nat), n ≤ es + fuel → p < 256 →
    ∃ k, (eraseLoop env n fuel es p).2 = pagesTrace p k ∧
      ((eraseLoop env n fuel es p).1 = true → n ≤ es + sumSizesMod env p k) ∧
      ((eraseLoop env n fuel es p).1 = false →
        (env.getpagesize ((p + k) % 256) = 0 ∨
          (0 < k ∧ env.eraseOk ((p + k - 1) % 256) = false))) := by
  intro fuel
  induction fuel with
  | zero =>
      intro es p hfuel hp
      refine ⟨0, rfl, ?_, ?_⟩
      · intro _
        simp only [sumSizesMod_zero]
        omega
      · intro h
        exact absurd h (by simp [eraseLoop])
  | succ fuel ih =>
      intro es p hfuel hp
      by_cases hlt : es < n
      · by_cases hps : env.getpagesize p = 0
        · refine ⟨0, ?_, ?_, fun _ => Or.inl ?_⟩
          · simp [eraseLoop, hlt, hps, pagesTrace]
          · intro h
            simp [eraseLoop, hlt, hps] at h
          · rwa [Nat.add_zero, Nat.mod_eq_of_lt hp]
        · by_cases hek : env.eraseOk p = false
          · refine ⟨1, ?_, ?_, ?_⟩
            · simp [eraseLoop, hlt, hps, hek, pagesTrace]
            · intro h
              simp [eraseLoop, hlt, hps, hek] at h
            · intro _
              right
              refine ⟨Nat.zero_lt_one, ?_⟩
              have he : p + 1 - 1 = p := by omega
              rw [he, Nat.mod_eq_of_lt hp]
              simpa using hek
          · have hlo : env.getpagesize p < 4294967296 - n := hpages p hp
            have hnowrap : (es + env.getpagesize p) % 4294967296 = es + env.getpagesize p :=
              Nat.mod_eq_of_lt (by omega)
            have hge : 1 ≤ env.getpagesize p := by omega
            have hfuel' : n ≤ (es + env.getpagesize p) % 4294967296 + fuel := by
              rw [hnowrap]
              omega
            have hp' : (p + 1) % 256 < 256 := Nat.mod_lt _ (by omega)
            obtain ⟨k, htr, hok, hfail⟩ := ih ((es + env.getpagesize p) % 4294967296)
              ((p + 1) % 256) hfuel' hp'
            have hrw : eraseLoop env n (fuel + 1) es p =
                ((eraseLoop env n fuel ((es + env.getpagesize p) % 4294967296)
                    ((p + 1) % 256)).1,
                  FlashEvent.expectDelay 1000 :: FlashEvent.erasePage p ::
                    (eraseLoop env n fuel ((es + env.getpagesize p) % 4294967296)
                      ((p + 1) % 256)).2) := by
              simp [eraseLoop, hlt, hps, hek]
            refine ⟨k + 1, ?_, ?_, ?_⟩
            · rw [hrw]
              simpa [pagesTrace] using htr
            · intro h
              rw [hrw] at h
              have hcov := hok h
              rw [hnowrap] at hcov
              rw [sumSizesMod_succ, Nat.mod_eq_of_lt hp]
              omega
            · intro h
              rw [hrw] at h
              rcases hfail h with h1 | h2
              · left
                rw [Nat.mod_add_mod] at h1
                have heq : p + 1 + k = p + (k + 1) := by omega
                rwa [heq] at h1
              · right
                obtain ⟨hk, hko⟩ := h2
                refine ⟨Nat.succ_pos k, ?_⟩
                have he1 : (p + 1) % 256 + k - 1 = (p + 1) % 256 + (k - 1) := by omega
                rw [he1, Nat.mod_add_mod] at hko
                have he2 : p + 1 + (k - 1) = p + (k + 1) - 1 := by omega
                rwa [he2] at hko
      · refine ⟨0, ?_, ?_, ?_⟩
        · simp [eraseLoop, hlt, pagesTrace]
        · intro _
          simp only [sumSizesMod_zero]
          omega
        · intro h
          simp [eraseLoop, hlt] at h

theorem writeLoop_shape (env : Env) (f pp : List Nat) : ∀ fuel w,
    ∃ mid, (writeLoop env f pp fuel w).2 =
        mid ++ [FlashEvent.keepUnlocked false, FlashEvent.romfsFree] ∧
      mid.filter isUnlockEv = [] ∧ mid.filter isFreeEv = [] := by
  intro fuel
  induction fuel with
  | zero => intro w; exact ⟨[], rfl, rfl, rfl⟩
  | succ fuel ih =>
      intro w
      cases hw : env.writeOk w with
      | false =>
          obtain ⟨mid, hm, h1, h2⟩ := ih (w + 1)
          refine ⟨[FlashEvent.expectDelay 1000, FlashEvent.write env.pageAddr0 f,
                   FlashEvent.delay 100] ++ mid, ?_, ?_, ?_⟩
          · simp only [writeLoop, hw, if_pos]
            simp [hm]
          · simp only [List.filter_append, h1]
            rfl
          · simp only [List.filter_append, h2]
            rfl
      | true =>
          refine ⟨[FlashEvent.expectDelay 1000, FlashEvent.write env.pageAddr0 f] ++
              (if env.saveParams && !(pp.length == 0) then
                [FlashEvent.write (env.pageAddr0 + usub32 (env.getpagesize 0) pp.length) pp]
               else []), ?_, ?_, ?_⟩
          · simp only [writeLoop, hw]
            simp
          · simp only [List.filter_append]
            split <;> rfl
          · simp only [List.filter_append]
            split <;> rfl

theorem writeLoop_allfail (env : Env) (f pp : List Nat) : ∀ fuel w,
    (∀ i, i < fuel → env.writeOk (w + i) = false) →
    (writeLoop env f pp fuel w).1 = FlashBootloader.FAIL ∧
    delayCount (writeLoop env f pp fuel w).2 = fuel ∧
    writeCount (writeLoop env f pp fuel w).2 = fuel ∧
    freeCount (writeLoop env f pp fuel w).2 = 1 := by
  intro fuel
  induction fuel with
  | zero => intro w _; exact ⟨rfl, rfl, rfl, rfl⟩
  | succ fuel ih =>
      intro w hall
      have hw : env.writeOk w = false := by simpa using hall 0 (Nat.succ_pos fuel)
      have hrest : ∀ i, i < fuel → env.writeOk (w + 1 + i) = false := by
        intro i hi
        have := hall (i + 1) (by omega)
        simpa [Nat.add_assoc, Nat.add_comm 1 i] using this
      obtain ⟨hres, hd, hwc, hf⟩ := ih (w + 1) hrest
      have hrw : writeLoop env f pp (fuel + 1) w =
          ((writeLoop env f pp fuel (w + 1)).1,
            FlashEvent.expectDelay 1000 :: FlashEvent.write env.pageAddr0 f ::
              FlashEvent.delay 100 :: (writeLoop env f pp fuel (w + 1)).2) := by
        simp only [writeLoop, hw, if_pos]
        simp
      rw [hrw]
      refine ⟨hres, ?_, ?_, ?_⟩
      · simp only [delayCount, List.countP_cons] at hd ⊢
        simp
        omega
      · simp only [writeCount, List.countP_cons] at hwc ⊢
        simp
        omega
      · simp only [freeCount, List.countP_cons] at hf ⊢
        simp
        omega

theorem writeLoop_succ (env : Env) (f pp : List Nat) : ∀ k fuel w, k < fuel →
    (∀ i, i < k → env.writeOk (w + i) = false) → env.writeOk (w + k) = true →
    (writeLoop env f pp fuel w).1 = FlashBootloader.OK ∧
    delayCount (writeLoop env f pp fuel w).2 = k ∧
    freeCount (writeLoop env f pp fuel w).2 = 1 ∧
    writeCount (writeLoop env f pp fuel w).2 =
      k + 1 + (if env.saveParams && !(pp.length == 0) then 1 else 0) ∧
    (env.saveParams = true → pp ≠ [] →
      FlashEvent.write (env.pageAddr0 + usub32 (env.getpagesize 0) pp.length) pp ∈
        (writeLoop env f pp fuel w).2) := by
  intro k
  induction k with
  | zero =>
      intro fuel w hk hfail hsucc
      obtain ⟨fuel, rfl⟩ : ∃ m, fuel = m + 1 := ⟨fuel - 1, by omega⟩
      have hw : env.writeOk w = true := by simpa using hsucc
      have hrw : writeLoop env f pp (fuel + 1) w =
          (FlashBootloader.OK,
            FlashEvent.expectDelay 1000 :: FlashEvent.write env.pageAddr0 f ::
              ((if env.saveParams && !(pp.length == 0) then
                  [FlashEvent.write (env.pageAddr0 + usub32 (env.getpagesize 0) pp.length) pp]
                else []) ++
               [FlashEvent.keepUnlocked false, FlashEvent.romfsFree])) := by
        simp only [writeLoop, hw]
        simp
      rw [hrw]
      by_cases hc : (env.saveParams && !(pp.length == 0)) = true
      · simp only [if_pos hc]
        refine ⟨by trivial, by simp [delayCount, List.countP_cons],
          by simp [freeCount, List.countP_cons],
          by simp [writeCount, List.countP_cons], fun _ _ => by simp⟩
      · simp only [if_neg hc]
        refine ⟨by trivial, by simp [delayCount, List.countP_cons],
          by simp [freeCount, List.countP_cons],
          by simp [writeCount, List.countP_cons], fun hs hpp => absurd ?_ hc⟩
        rw [hs]
        simp only [Bool.true_and, Bool.not_eq_true', beq_eq_false_iff_ne, Ne, List.length_eq_zero]
        exact hpp
  | succ k ih =>
      intro fuel w hk hfail hsucc
      obtain ⟨fuel, rfl⟩ : ∃ m, fuel = m + 1 := ⟨fuel - 1, by omega⟩
      have hw : env.writeOk w = false := by simpa using hfail 0 (Nat.succ_pos k)
      have hfail' : ∀ i, i < k → env.writeOk (w + 1 + i) = false := by
        intro i hi
        have := hfail (i + 1) (by omega)
        simpa [Nat.add_assoc, Nat.add_comm 1 i] using this
      have hsucc' : env.writeOk (w + 1 + k) = true := by
        have heq : w + 1 + k = w + (k + 1) := by omega
        rw [heq]
        exact hsucc
      obtain ⟨hres, hd, hf, hwc, hmem⟩ := ih fuel (w + 1) (by omega) hfail' hsucc'
      have hrw : writeLoop env f pp (fuel + 1) w =
          ((writeLoop env f pp fuel (w + 1)).1,
            FlashEvent.expectDelay 1000 :: FlashEvent.write env.pageAddr0 f ::
              FlashEvent.delay 100 :: (writeLoop env f pp fuel (w + 1)).2) := by
        simp only [writeLoop, hw, if_pos]
        simp
      rw [hrw]
      refine ⟨hres, ?_, ?_, ?_, ?_⟩
      · simp only [delayCount, List.countP_cons] at hd ⊢
        simp
        omega
      · simp only [freeCount, List.countP_cons] at hf ⊢
        simp
        omega
      · simp only [writeCount, List.countP_cons] at hwc ⊢
        simp at hwc ⊢
        omega
      · intro hs hpp
        have := hmem hs hpp
        simp only [List.mem_cons]
        right; right; right
        exact this

theorem writeLoop_bounds (env : Env) (f pp : List Nat) : ∀ fuel w,
    delayCount (writeLoop env f pp fuel w).2 ≤ fuel ∧
    writeCount (writeLoop env f pp fuel w).2 ≤ fuel + 1 ∧
    freeCount (writeLoop env f pp fuel w).2 = 1 := by
  intro fuel
  induction fuel with
  | zero =>
      intro w
      refine ⟨?_, ?_, ?_⟩ <;>
        simp [writeLoop, delayCount, writeCount, freeCount, List.countP_cons]
  | succ fuel ih =>
      intro w
      cases hw : env.writeOk w with
      | false =>
          obtain ⟨hd, hwc, hf⟩ := ih (w + 1)
          have hrw : writeLoop env f pp (fuel + 1) w =
              ((writeLoop env f pp fuel (w + 1)).1,
                FlashEvent.expectDelay 1000 :: FlashEvent.write env.pageAddr0 f ::
                  FlashEvent.delay 100 :: (writeLoop env f pp fuel (w + 1)).2) := by
            simp only [writeLoop, hw, if_pos]
            simp
          rw [hrw]
          refine ⟨?_, ?_, ?_⟩
          · simp only [delayCount, List.countP_cons] at hd ⊢
            simp
            omega
          · simp only [writeCount, List.countP_cons] at hwc ⊢
            simp
            omega
          · simp only [freeCount, List.countP_cons] at hf ⊢
            simp
            omega
      | true =>
          have hrw : writeLoop env f pp (fuel + 1) w =
              (FlashBootloader.OK,
                FlashEvent.expectDelay 1000 :: FlashEvent.write env.pageAddr0 f ::
                  ((if env.saveParams && !(pp.length == 0) then
                      [FlashEvent.write (env.pageAddr0 + usub32 (env.getpagesize 0) pp.length) pp]
                    else []) ++
                   [FlashEvent.keepUnlocked false, FlashEvent.romfsFree])) := by
            simp only [writeLoop, hw]
            simp
          rw [hrw]
          by_cases hc : (env.saveParams && !(pp.length == 0)) = true
          · simp only [if_pos hc]
            refine ⟨by simp [delayCount, List.countP_cons], ?_,
              by simp [freeCount, List.countP_cons]⟩
            simp [writeCount, List.countP_cons]
          · simp only [if_neg hc]
            refine ⟨by simp [delayCount, List.countP_cons], ?_,
              by simp [freeCount, List.countP_cons]⟩
            simp [writeCount, List.countP_cons]

theorem decisionStep_trace (env : Env) (buf : List Nat) (n : Nat) :
    (decisionStep env buf n).2.2 = [FlashEvent.memRead env.pageAddr0 n] ∨
    (decisionStep env buf n).2.2 = [FlashEvent.memRead env.pageAddr0 n,
      FlashEvent.memRead env.pageAddr0 (env.getpagesize 0)] := by
  unfold decisionStep
  cases hs : env.saveParams with
  | false => left; simp
  | true =>
      simp only [if_true]
      split
      · right; rfl
      · left; rfl

theorem decisionStep_pp (env : Env) (buf : List Nat) (n : Nat) :
    (decisionStep env buf n).2.1 =
      (if env.saveParams then
        (get_persistent_params env.insData env.allocOracle).2.buf else []) := by
  unfold decisionStep
  cases hs : env.saveParams with
  | false => simp
  | true => simp

theorem decisionStep_counts (env : Env) (buf : List Nat) (n : Nat) :
    eraseCount (decisionStep env buf n).2.2 = 0 ∧
    writeCount (decisionStep env buf n).2.2 = 0 ∧
    freeCount (decisionStep env buf n).2.2 = 0 ∧
    delayCount (decisionStep env buf n).2.2 = 0 ∧
    unlockEvents (decisionStep env buf n).2.2 = [] ∧
    (decisionStep env buf n).2.2.filter isWriteEv = [] ∧
    (decisionStep env buf n).2.2.filter isUnlockEv = [] := by
  rcases decisionStep_trace env buf n with h | h <;>
    rw [h] <;>
    exact ⟨rfl, rfl, rfl, rfl, rfl, rfl, rfl⟩

/-- C9: the up-to-date decision step of `flash_bootloader` — the image
byte-compare plus, when parameter preservation is enabled, the blob
serialization, space check and textual comparison — performs only reads:
running its event trace against any flash-device state returns that state
unchanged. -/
theorem decision_step_pure (env : Env) (buf : List Nat) (n : Nat) (st : FlashState) :
    runTrace env st (decisionStep env buf n).2.2 = st := by
  rcases decisionStep_trace env buf n with h | h <;> rw [h] <;> rfl

theorem decisionStep_uptodate (env : Env) (buf : List Nat) (n : Nat)
    (himg : imageMatches buf env.mem env.pageAddr0 n = true)
    (hpp : env.saveParams = true →
      (get_persistent_params env.insData env.allocOracle).1 = true →
      (u32ofInt ((env.getpagesize 0 : Int) - (n : Int)) <
         (get_persistent_params env.insData env.allocOracle).2.buf.length % 4294967296 ∨
       ∃ old, load_persistent_params env = some old ∧
         strcmpEq (get_persistent_params env.insData env.allocOracle).2.buf old = true)) :
    (decisionStep env buf n).1 = true := by
  unfold decisionStep
  cases hs : env.saveParams with
  | false => simpa using himg
  | true =>
      simp only [if_true, himg, Bool.true_and, Bool.not_eq_true']
      cases hr : (get_persistent_params env.insData env.allocOracle).1 with
      | false => simp [hr]
      | true =>
          rcases hpp hs hr with hlt | ⟨old, hold, heq⟩
          · have hnot : ¬(u32ofInt ((env.getpagesize 0 : Int) - (n : Int)) ≥
                (get_persistent_params env.insData env.allocOracle).2.buf.length %
                  4294967296) := by omega
            simp [hr, hnot]
          · simp [hr, hold, heq]

theorem flash_bootloader_none (env : Env) (h : env.romfs = none) :
    flash_bootloader env = (FlashBootloader.NOT_AVAILABLE, [FlashEvent.expectDelay 11000]) := by
  unfold flash_bootloader
  rw [h]

theorem flash_bootloader_uptodate (env : Env) (buf : List Nat) (n0 : Nat)
    (hfw : env.romfs = some (buf, n0))
    (hdec : (decisionStep env buf (alignUp32 n0)).1 = true) :
    flash_bootloader env = (FlashBootloader.NO_CHANGE,
      FlashEvent.expectDelay 11000 ::
        (decisionStep env buf (alignUp32 n0)).2.2 ++ [FlashEvent.romfsFree]) := by
  unfold flash_bootloader
  rw [hfw]
  simp [hdec]

theorem flash_bootloader_erase_fail (env : Env) (buf : List Nat) (n0 : Nat)
    (hfw : env.romfs = some (buf, n0))
    (hdec : (decisionStep env buf (alignUp32 n0)).1 = false)
    (her : (eraseLoop env (alignUp32 n0) (alignUp32 n0) 0 0).1 = false) :
    flash_bootloader env = (FlashBootloader.FAIL,
      FlashEvent.expectDelay 11000 ::
        (decisionStep env buf (alignUp32 n0)).2.2 ++
          (eraseLoop env (alignUp32 n0) (alignUp32 n0) 0 0).2 ++ [FlashEvent.romfsFree]) := by
  unfold flash_bootloader
  rw [hfw]
  simp [hdec, her]

theorem flash_bootloader_write_phase (env : Env) (buf : List Nat) (n0 : Nat)
    (hfw : env.romfs = some (buf, n0))
    (hdec : (decisionStep env buf (alignUp32 n0)).1 = false)
    (her : (eraseLoop env (alignUp32 n0) (alignUp32 n0) 0 0).1 = true) :
    flash_bootloader env =
      ((writePhase env (writtenBytes buf (alignUp32 n0))
          (decisionStep env buf (alignUp32 n0)).2.1).1,
        FlashEvent.expectDelay 11000 ::
          (decisionStep env buf (alignUp32 n0)).2.2 ++
            (eraseLoop env (alignUp32 n0) (alignUp32 n0) 0 0).2 ++
              (writePhase env (writtenBytes buf (alignUp32 n0))
                (decisionStep env buf (alignUp32 n0)).2.1).2) := by
  unfold flash_bootloader
  rw [hfw]
  simp [hdec, her]

/-- C1 (amended): when the candidate image is byte-identical to the first
`aligned_size` resident bytes and, with parameter preservation enabled,
every successfully serialized candidate blob either fails the source's
unsigned fit check (`uint32(page_size - aligned_size) < blob length`,
which treats a negative remainder as ample space) or is textually
identical to the blob locatable in page 0, then `flash_bootloader`
returns NO_CHANGE and issues zero erase calls and zero write calls. -/
theorem flash_bootloader_uptodate_no_change (env : Env) (buf : List Nat) (n0 : Nat)
    (hfw : env.romfs = some (buf, n0))
    (himg : imageMatches buf env.mem env.pageAddr0 (alignUp32 n0) = true)
    (hpp : env.saveParams = true →
      (get_persistent_params env.insData env.allocOracle).1 = true →
      (u32ofInt ((env.getpagesize 0 : Int) - (alignUp32 n0 : Int)) <
         (get_persistent_params env.insData env.allocOracle).2.buf.length % 4294967296 ∨
       ∃ old, load_persistent_params env = some old ∧
         strcmpEq (get_persistent_params env.insData env.allocOracle).2.buf old = true)) :
    (flash_bootloader env).1 = FlashBootloader.NO_CHANGE ∧
    eraseCount (flash_bootloader env).2 = 0 ∧
    writeCount (flash_bootloader env).2 = 0 := by
  have hdec := decisionStep_uptodate env buf (alignUp32 n0) himg hpp
  rw [flash_bootloader_uptodate env buf n0 hfw hdec]
  rcases decisionStep_trace env buf (alignUp32 n0) with h | h <;> rw [h] <;>
    exact ⟨rfl, rfl, rfl⟩

/-- C2 (amended): on every invocation in which the candidate image was
found, `AP_ROMFS::free` is called exactly once (up-to-date, erase
failure, write exhaustion and write success alike); when the image is not
found (`NOT_AVAILABLE`), no buffer was acquired and no release occurs. -/
theorem flash_bootloader_release_exactly_once (env : Env) :
    (env.romfs = none → freeCount (flash_bootloader env).2 = 0) ∧
    (∀ buf n0, env.romfs = some (buf, n0) → freeCount (flash_bootloader env).2 = 1) := by
  constructor
  · intro h
    rw [flash_bootloader_none env h]
    rfl
  · intro buf n0 hfw
    cases hdec : (decisionStep env buf (alignUp32 n0)).1 with
    | true =>
        rw [flash_bootloader_uptodate env buf n0 hfw hdec]
        rcases decisionStep_trace env buf (alignUp32 n0) with h | h <;> rw [h] <;> rfl
    | false =>
        cases her : (eraseLoop env (alignUp32 n0) (alignUp32 n0) 0 0).1 with
        | false =>
            rw [flash_bootloader_erase_fail env buf n0 hfw hdec her]
            obtain ⟨k, htr⟩ := eraseLoop_trace env (alignUp32 n0) (alignUp32 n0) 0 0
            obtain ⟨-, hef, -, -, -, -⟩ := pagesTrace_counts k 0
            rw [htr]
            simp only [freeCount] at hef ⊢
            rcases decisionStep_trace env buf (alignUp32 n0) with h | h <;> rw [h] <;>
              simp [List.countP_cons, List.countP_append, hef]
        | true =>
            rw [flash_bootloader_write_phase env buf n0 hfw hdec her]
            obtain ⟨k, htr⟩ := eraseLoop_trace env (alignUp32 n0) (alignUp32 n0) 0 0
            obtain ⟨-, hef, -, -, -, -⟩ := pagesTrace_counts k 0
            obtain ⟨-, -, hwf⟩ := writeLoop_bounds env (writtenBytes buf (alignUp32 n0))
              (decisionStep env buf (alignUp32 n0)).2.1 10 0
            rw [htr]
            simp only [freeCount, writePhase] at hef hwf ⊢
            rcases decisionStep_trace env buf (alignUp32 n0) with h | h <;> rw [h] <;>
              simp [List.countP_cons, List.countP_append, hef, hwf]

theorem flash_bootloader_write_counts (env : Env) (buf : List Nat) (n0 : Nat)
    (hfw : env.romfs = some (buf, n0))
    (hdec : (decisionStep env buf (alignUp32 n0)).1 = false)
    (her : (eraseLoop env (alignUp32 n0) (alignUp32 n0) 0 0).1 = true) :
    (flash_bootloader env).1 = (writeLoop env (writtenBytes buf (alignUp32 n0))
        (decisionStep env buf (alignUp32 n0)).2.1 10 0).1 ∧
    delayCount (flash_bootloader env).2 = delayCount (writeLoop env
        (writtenBytes buf (alignUp32 n0)) (decisionStep env buf (alignUp32 n0)).2.1 10 0).2 ∧
    writeCount (flash_bootloader env).2 = writeCount (writeLoop env
        (writtenBytes buf (alignUp32 n0)) (decisionStep env buf (alignUp32 n0)).2.1 10 0).2 ∧
    ∀ e, e ∈ (writeLoop env (writtenBytes buf (alignUp32 n0))
        (decisionStep env buf (alignUp32 n0)).2.1 10 0).2 → e ∈ (flash_bootloader env).2 := by
  rw [flash_bootloader_write_phase env buf n0 hfw hdec her]
  obtain ⟨k, htr⟩ := eraseLoop_trace env (alignUp32 n0) (alignUp32 n0) 0 0
  obtain ⟨hpw, -, hpd, -, -, -⟩ := pagesTrace_counts k 0
  rw [htr]
  refine ⟨rfl, ?_, ?_, ?_⟩
  · simp only [delayCount, writePhase] at hpd ⊢
    rcases decisionStep_trace env buf (alignUp32 n0) with h | h <;> rw [h] <;>
      simp [List.countP_cons, List.countP_append, hpd]
  · simp only [writeCount, writePhase] at hpw ⊢
    rcases decisionStep_trace env buf (alignUp32 n0) with h | h <;> rw [h] <;>
      simp [List.countP_cons, List.countP_append, hpw]
  · intro e he
    simp only [writePhase, List.mem_append, List.mem_cons]
    tauto

/-- C3: the write phase makes at most 10 image-write attempts with a
fixed 100 ms backoff after each failure.  If the device fails the first
9 write calls and succeeds on the 10th, `flash_bootloader` returns OK
(after 9 backoffs); if all 10 calls fail it returns FAIL after exactly
10 write calls and 10 backoffs.  In general the trace carries at most 10
backoffs and at most 11 flash writes (10 image attempts plus at most one
trailing parameter-blob write). -/
theorem write_retry_bound_exact (env : Env) (buf : List Nat) (n0 : Nat)
    (hfw : env.romfs = some (buf, n0))
    (hdec : (decisionStep env buf (alignUp32 n0)).1 = false)
    (her : (eraseLoop env (alignUp32 n0) (alignUp32 n0) 0 0).1 = true) :
    ((∀ i, i < 9 → env.writeOk i = false) → env.writeOk 9 = true →
        (flash_bootloader env).1 = FlashBootloader.OK ∧
        delayCount (flash_bootloader env).2 = 9) ∧
    ((∀ i, i < 10 → env.writeOk i = false) →
        (flash_bootloader env).1 = FlashBootloader.FAIL ∧
        delayCount (flash_bootloader env).2 = 10 ∧
        writeCount (flash_bootloader env).2 = 10) ∧
    delayCount (flash_bootloader env).2 ≤ 10 ∧
    writeCount (flash_bootloader env).2 ≤ 11 := by
  obtain ⟨hres, hd, hwc, -⟩ := flash_bootloader_write_counts env buf n0 hfw hdec her
  obtain ⟨b1, b2, -⟩ := writeLoop_bounds env (writtenBytes buf (alignUp32 n0))
    (decisionStep env buf (alignUp32 n0)).2.1 10 0
  refine ⟨?_, ?_, ?_, ?_⟩
  · intro hf h9
    have hfail' : ∀ i, i < 9 → env.writeOk (0 + i) = false := by
      intro i hi
      simpa using hf i hi
    have hsucc' : env.writeOk (0 + 9) = true := by simpa using h9
    obtain ⟨r1, r2, -, -, -⟩ := writeLoop_succ env (writtenBytes buf (alignUp32 n0))
      (decisionStep env buf (alignUp32 n0)).2.1 9 10 0 (by omega) hfail' hsucc'
    exact ⟨hres.trans r1, hd.trans r2⟩
  · intro hf
    have hfail' : ∀ i, i < 10 → env.writeOk (0 + i) = false := by
      intro i hi
      simpa using hf i hi
    obtain ⟨r1, r2, r3, -⟩ := writeLoop_allfail env (writtenBytes buf (alignUp32 n0))
      (decisionStep env buf (alignUp32 n0)).2.1 10 0 hfail'
    exact ⟨hres.trans r1, hd.trans r2, hwc.trans r3⟩
  · rw [hd]
    exact b1
  · rw [hwc]
    exact b2

theorem applyEvent_unlocked (env : Env) (st : FlashState) (e : FlashEvent)
    (h : isUnlockEv e = false) : (applyEvent env st e).unlocked = st.unlocked := by
  cases e <;> simp [applyEvent] at h ⊢

theorem runTrace_append (env : Env) (st : FlashState) (a b : List FlashEvent) :
    runTrace env st (a ++ b) = runTrace env (runTrace env st a) b := by
  simp [runTrace, List.foldl_append]

theorem runTrace_unlocked_no_unlock (env : Env) (l : List FlashEvent)
    (h : l.filter isUnlockEv = []) :
    ∀ st : FlashState, (runTrace env st l).unlocked = st.unlocked := by
  induction l with
  | nil => intro st; rfl
  | cons a l ih =>
      intro st
      rw [List.filter_cons] at h
      by_cases ha : isUnlockEv a = true
      · rw [if_pos ha] at h
        exact absurd h (by simp)
      · rw [if_neg ha] at h
        have : runTrace env st (a :: l) = runTrace env (applyEvent env st a) l := rfl
        rw [this, ih h, applyEvent_unlocked]
        simpa using ha

/-- Helper for C5: the split of the trace around the write-unlock gate
when the write phase is reached. -/
theorem unlock_gate_shape (env : Env) (buf : List Nat) (n0 : Nat) (st : FlashState)
    (hfw : env.romfs = some (buf, n0))
    (hdec : (decisionStep env buf (alignUp32 n0)).1 = false)
    (her : (eraseLoop env (alignUp32 n0) (alignUp32 n0) 0 0).1 = true) :
    (∃ pre mid post,
      (flash_bootloader env).2 = pre ++ [FlashEvent.keepUnlocked true] ++ mid ++
        [FlashEvent.keepUnlocked false] ++ post ∧
      pre.filter isUnlockEv = [] ∧ pre.filter isWriteEv = [] ∧
      mid.filter isUnlockEv = [] ∧
      post.filter isUnlockEv = [] ∧ post.filter isWriteEv = []) ∧
    (runTrace env st (flash_bootloader env).2).unlocked = false := by
  rw [flash_bootloader_write_phase env buf n0 hfw hdec her]
  obtain ⟨k, htr⟩ := eraseLoop_trace env (alignUp32 n0) (alignUp32 n0) 0 0
  obtain ⟨-, -, -, -, hpw, hpu⟩ := pagesTrace_counts k 0
  obtain ⟨hde, hdw, -, -, -, hdwf, hduf⟩ := decisionStep_counts env buf (alignUp32 n0)
  obtain ⟨mid, hm, hmu, hmf⟩ := writeLoop_shape env (writtenBytes buf (alignUp32 n0))
    (decisionStep env buf (alignUp32 n0)).2.1 10 0
  rw [htr]
  have hshape : FlashEvent.expectDelay 11000 ::
      (decisionStep env buf (alignUp32 n0)).2.2 ++ pagesTrace 0 k ++
        (writePhase env (writtenBytes buf (alignUp32 n0))
          (decisionStep env buf (alignUp32 n0)).2.1).2 =
      (FlashEvent.expectDelay 11000 ::
        (decisionStep env buf (alignUp32 n0)).2.2 ++ pagesTrace 0 k) ++
        [FlashEvent.keepUnlocked true] ++ mid ++
        [FlashEvent.keepUnlocked false] ++ [FlashEvent.romfsFree] := by
    simp only [writePhase, hm]
    simp
  rw [hshape]
  constructor
  · refine ⟨FlashEvent.expectDelay 11000 ::
      (decisionStep env buf (alignUp32 n0)).2.2 ++ pagesTrace 0 k, mid,
      [FlashEvent.romfsFree], rfl, ?_, ?_, hmu, rfl, rfl⟩
    · simp [List.filter_cons, List.filter_append, hduf, hpu]
    · simp [List.filter_cons, List.filter_append, hdwf, hpw]
  · have hassoc : (FlashEvent.expectDelay 11000 ::
        (decisionStep env buf (alignUp32 n0)).2.2 ++ pagesTrace 0 k) ++
        [FlashEvent.keepUnlocked true] ++ mid ++
        [FlashEvent.keepUnlocked false] ++ [FlashEvent.romfsFree] =
        ((FlashEvent.expectDelay 11000 ::
          (decisionStep env buf (alignUp32 n0)).2.2 ++ pagesTrace 0 k) ++
          [FlashEvent.keepUnlocked true] ++ mid) ++
          (FlashEvent.keepUnlocked false :: [FlashEvent.romfsFree]) := by
      simp [List.append_assoc]
    rw [hassoc, runTrace_append]
    have hstep : ∀ st2 : FlashState,
        runTrace env st2 (FlashEvent.keepUnlocked false :: [FlashEvent.romfsFree]) =
          runTrace env (applyEvent env st2 (FlashEvent.keepUnlocked false))
            [FlashEvent.romfsFree] := fun _ => rfl
    rw [hstep]
    rw [runTrace_unlocked_no_unlock env [FlashEvent.romfsFree] rfl]
    rfl

/-- C5: when the write phase is reached, the full trace splits as
`pre ++ [keep_unlocked(true)] ++ mid ++ [keep_unlocked(false)] ++ post`,
where `pre` contains no unlock and no write events (the gate is acquired
once, before the first write attempt), `mid` contains no unlock events
(held across all retries), and `post` contains no unlock and no write
events (released exactly once), and running the trace from any device
state ends with the gate locked; moreover no execution of
`flash_bootloader` — on any environment, from any starting state — ends
with the gate held unless it already was (branches that never reach the
write phase issue no gate calls at all). -/
theorem unlock_gate_scoped (env : Env) (buf : List Nat) (n0 : Nat) (st : FlashState)
    (hfw : env.romfs = some (buf, n0))
    (hdec : (decisionStep env buf (alignUp32 n0)).1 = false)
    (her : (eraseLoop env (alignUp32 n0) (alignUp32 n0) 0 0).1 = true) :
    ((∃ pre mid post,
      (flash_bootloader env).2 = pre ++ [FlashEvent.keepUnlocked true] ++ mid ++
        [FlashEvent.keepUnlocked false] ++ post ∧
      pre.filter isUnlockEv = [] ∧ pre.filter isWriteEv = [] ∧
      mid.filter isUnlockEv = [] ∧
      post.filter isUnlockEv = [] ∧ post.filter isWriteEv = []) ∧
    (runTrace env st (flash_bootloader env).2).unlocked = false) ∧
    (∀ (env2 : Env) (st2 : FlashState),
      (runTrace env2 st2 (flash_bootloader env2).2).unlocked = false ∨
      (runTrace env2 st2 (flash_bootloader env2).2).unlocked = st2.unlocked) := by
  refine ⟨unlock_gate_shape env buf n0 st hfw hdec her, ?_⟩
  intro env2 st2
  cases hfw2 : env2.romfs with
  | none =>
      right
      rw [flash_bootloader_none env2 hfw2]
      rfl
  | some fw =>
      obtain ⟨buf2, n02⟩ := fw
      obtain ⟨-, -, -, -, -, -, hduf⟩ := decisionStep_counts env2 buf2 (alignUp32 n02)
      cases hdec2 : (decisionStep env2 buf2 (alignUp32 n02)).1 with
      | true =>
          right
          rw [flash_bootloader_uptodate env2 buf2 n02 hfw2 hdec2]
          refine runTrace_unlocked_no_unlock env2 _ ?_ st2
          simp [List.filter_cons, List.filter_append, hduf]
      | false =>
          cases her2 : (eraseLoop env2 (alignUp32 n02) (alignUp32 n02) 0 0).1 with
          | false =>
              right
              rw [flash_bootloader_erase_fail env2 buf2 n02 hfw2 hdec2 her2]
              obtain ⟨k, htr2⟩ :=
                eraseLoop_trace env2 (alignUp32 n02) (alignUp32 n02) 0 0
              obtain ⟨-, -, -, -, -, hpu2⟩ := pagesTrace_counts k 0
              rw [htr2]
              refine runTrace_unlocked_no_unlock env2 _ ?_ st2
              simp [List.filter_cons, List.filter_append, hduf, hpu2]
          | true =>
              left
              exact (unlock_gate_shape env2 buf2 n02 st2 hfw2 hdec2 her2).2

/-- C6: once the decision step demands an update, the erase phase walks
pages starting at page 0 with the source's wrapping `uint8_t` counter
(the `i`-th erase call targets page `i % 256`), accumulating the erased
byte counts; on success the accumulated counts cover at least
`aligned_size` bytes, and if a page reports size 0 (page table
exhausted) or an erase call fails, the run returns FAIL immediately —
with no retry of the failing call — and the whole trace contains zero
flash write calls.  The hypothesis bounds every page size below
`2^32 - aligned_size` (true of any real `uint32` page table a firmware
image fits into), which keeps the `uint32_t` byte accumulator from
wrapping. -/
theorem erase_phase_spec (env : Env) (buf : List Nat) (n0 : Nat)
    (hfw : env.romfs = some (buf, n0))
    (hdec : (decisionStep env buf (alignUp32 n0)).1 = false)
    (hpages : ∀ i, i < 256 → env.getpagesize i < 4294967296 - alignUp32 n0) :
    ∃ k,
      eraseEvents (eraseLoop env (alignUp32 n0) (alignUp32 n0) 0 0).2 =
        (List.range k).map (fun i => FlashEvent.erasePage (i % 256)) ∧
      ((eraseLoop env (alignUp32 n0) (alignUp32 n0) 0 0).1 = true →
        alignUp32 n0 ≤ sumSizesMod env 0 k) ∧
      ((eraseLoop env (alignUp32 n0) (alignUp32 n0) 0 0).1 = false →
        (env.getpagesize (k % 256) = 0 ∨ (0 < k ∧ env.eraseOk ((k - 1) % 256) = false)) ∧
        (flash_bootloader env).1 = FlashBootloader.FAIL ∧
        writeCount (flash_bootloader env).2 = 0) := by
  obtain ⟨k, htr, hok, hfail⟩ := eraseLoop_spec env (alignUp32 n0) hpages
    (alignUp32 n0) 0 0 (by omega) (by omega)
  refine ⟨k, ?_, ?_, ?_⟩
  · rw [htr, pagesTrace_eraseEvents k 0 (by omega)]
    simp
  · intro h
    simpa using hok h
  · intro h
    refine ⟨by simpa using hfail h, ?_, ?_⟩
    · rw [flash_bootloader_erase_fail env buf n0 hfw hdec h]
    · rw [flash_bootloader_erase_fail env buf n0 hfw hdec h, htr]
      obtain ⟨hpw, -, -, -, -, -⟩ := pagesTrace_counts k 0
      simp only [writeCount] at hpw ⊢
      rcases decisionStep_trace env buf (alignUp32 n0) with hh | hh <;> rw [hh] <;>
        simp [List.countP_cons, List.countP_append, hpw]

/-- C10: once the write phase is reached, if the device accepts the
image-write call on attempt `k` (the first `k` calls failing), the run
returns OK — regardless of the device's answers to any later write call.
In particular the parameter-blob write that follows (present in the
trace whenever preservation is on and the blob is non-empty) never
consults the device's boolean result, so a failed blob write is
invisible in the reported result. -/
theorem blob_write_result_ignored (env : Env) (buf : List Nat) (n0 k : Nat)
    (hfw : env.romfs = some (buf, n0))
    (hdec : (decisionStep env buf (alignUp32 n0)).1 = false)
    (her : (eraseLoop env (alignUp32 n0) (alignUp32 n0) 0 0).1 = true)
    (hk : k < 10)
    (hfail : ∀ i, i < k → env.writeOk i = false)
    (hsucc : env.writeOk k = true) :
    (flash_bootloader env).1 = FlashBootloader.OK ∧
    (env.saveParams = true → (decisionStep env buf (alignUp32 n0)).2.1 ≠ [] →
      FlashEvent.write (env.pageAddr0 +
          usub32 (env.getpagesize 0) (decisionStep env buf (alignUp32 n0)).2.1.length)
        (decisionStep env buf (alignUp32 n0)).2.1 ∈ (flash_bootloader env).2) := by
  obtain ⟨hres, -, -, hmem⟩ := flash_bootloader_write_counts env buf n0 hfw hdec her
  have hfail' : ∀ i, i < k → env.writeOk (0 + i) = false := by
    intro i hi
    simpa using hfail i hi
  have hsucc' : env.writeOk (0 + k) = true := by simpa using hsucc
  obtain ⟨r1, -, -, -, rmem⟩ := writeLoop_succ env (writtenBytes buf (alignUp32 n0))
    (decisionStep env buf (alignUp32 n0)).2.1 k 10 0 hk hfail' hsucc'
  exact ⟨hres.trans r1, fun hs hpp => hmem _ (rmem hs hpp)⟩

theorem usub32_eq (a b : Nat) (h1 : b ≤ a) (h2 : a < 4294967296) : usub32 a b = a - b := by
  unfold usub32
  have hb : b % 4294967296 = b := Nat.mod_eq_of_lt (lt_of_le_of_lt h1 h2)
  rw [hb]
  have heq : a + (4294967296 - b) = 4294967296 + (a - b) := by omega
  rw [heq, Nat.add_mod_left]
  exact Nat.mod_eq_of_lt (by omega)

/-- C4 (amended): when the image write succeeds and a non-empty candidate
parameter blob exists (and it fits in page 0, whose size is a valid
`uint32`), the blob is written at offset `page_size(0) - blob_length`
from the sector base — i.e. ending exactly at the end of page 0, not
immediately after the aligned image — and its first bytes at that offset
are the persistent-parameter header token. -/
theorem params_blob_written_at_end (env : Env) (buf : List Nat) (n0 k : Nat)
    (hfw : env.romfs = some (buf, n0))
    (hdec : (decisionStep env buf (alignUp32 n0)).1 = false)
    (her : (eraseLoop env (alignUp32 n0) (alignUp32 n0) 0 0).1 = true)
    (hk : k < 10)
    (hfail : ∀ i, i < k → env.writeOk i = false)
    (hsucc : env.writeOk k = true)
    (hs : env.saveParams = true)
    (hpp : (decisionStep env buf (alignUp32 n0)).2.1 ≠ [])
    (hlen : (decisionStep env buf (alignUp32 n0)).2.1.length ≤ env.getpagesize 0)
    (hps : env.getpagesize 0 < 4294967296) :
    FlashEvent.write (env.pageAddr0 +
        (env.getpagesize 0 - (decisionStep env buf (alignUp32 n0)).2.1.length))
      (decisionStep env buf (alignUp32 n0)).2.1 ∈ (flash_bootloader env).2 ∧
    (decisionStep env buf (alignUp32 n0)).2.1.take persistent_header.length =
      persistent_header := by
  obtain ⟨-, -, -, hmem⟩ := flash_bootloader_write_counts env buf n0 hfw hdec her
  have hfail' : ∀ i, i < k → env.writeOk (0 + i) = false := by
    intro i hi
    simpa using hfail i hi
  have hsucc' : env.writeOk (0 + k) = true := by simpa using hsucc
  obtain ⟨-, -, -, -, rmem⟩ := writeLoop_succ env (writtenBytes buf (alignUp32 n0))
    (decisionStep env buf (alignUp32 n0)).2.1 k 10 0 hk hfail' hsucc'
  constructor
  · have := hmem _ (rmem hs hpp)
    rwa [usub32_eq _ _ hlen hps] at this
  · have hppv := decisionStep_pp env buf (alignUp32 n0)
    rw [hs, if_pos rfl] at hppv
    rcases gpp_buf_shape env.insData env.allocOracle with hb | ⟨t, hb⟩
    · rw [hppv, hb] at hpp
      exact absurd rfl hpp
    · rw [hppv, hb]
      exact List.take_left _ _

theorem applyToken_explicits {V : Type} (atof : List Nat → V) (sc : ParamStore V × Nat)
    (tok : List Nat) : (applyToken atof sc tok).1.explicits = sc.1.explicits := by
  unfold applyToken
  cases h : splitEq tok with
  | none => rfl
  | some nv =>
      simp only [set_default_by_name]
      split <;> rfl

theorem applyToken_defaults {V : Type} (atof : List Nat → V) (sc : ParamStore V × Nat)
    (tok : List Nat) (name : List Nat)
    (hex : sc.1.explicits.any (fun p => p.1 == name) = true) :
    lookupDefault (applyToken atof sc tok).1 name = lookupDefault sc.1 name := by
  unfold applyToken
  cases h : splitEq tok with
  | none => rfl
  | some nv =>
      simp only [set_default_by_name]
      by_cases hnm : sc.1.explicits.any (fun p => p.1 == nv.1) = true
      · simp [hnm]
      · have hne : (nv.1 == name) = false := by
          by_contra hc
          have : (nv.1 == name) = true := by
            cases hb : (nv.1 == name) with
            | true => rfl
            | false => exact absurd hb hc
          have heq : nv.1 = name := by
            exact eq_of_beq this
          rw [heq] at hnm
          exact hnm hex
        simp only [hnm, if_false, Bool.false_eq_true]
        simp [lookupDefault, List.find?, hne]

theorem foldl_applyToken_explicits {V : Type} (atof : List Nat → V)
    (toks : List (List Nat)) : ∀ sc : ParamStore V × Nat,
    (toks.foldl (applyToken atof) sc).1.explicits = sc.1.explicits := by
  induction toks with
  | nil => intro sc; rfl
  | cons a toks ih =>
      intro sc
      have : (List.foldl (applyToken atof) sc (a :: toks)) =
          List.foldl (applyToken atof) (applyToken atof sc a) toks := rfl
      rw [this, ih (applyToken atof sc a), applyToken_explicits]

theorem foldl_applyToken_defaults {V : Type} (atof : List Nat → V)
    (toks : List (List Nat)) (name : List Nat) : ∀ sc : ParamStore V × Nat,
    sc.1.explicits.any (fun p => p.1 == name) = true →
    lookupDefault (toks.foldl (applyToken atof) sc).1 name = lookupDefault sc.1 name := by
  induction toks with
  | nil => intro sc _; rfl
  | cons a toks ih =>
      intro sc hex
      have hstep : (List.foldl (applyToken atof) sc (a :: toks)) =
          List.foldl (applyToken atof) (applyToken atof sc a) toks := rfl
      have hex' : (applyToken atof sc a).1.explicits.any (fun p => p.1 == name) = true := by
        rw [applyToken_explicits]
        exact hex
      rw [hstep, ih (applyToken atof sc a) hex', applyToken_defaults atof sc a name hex]

theorem takeWhile_ne61_eq (l : List Nat) (hall : ∀ c ∈ l, (c == 61) = false) :
    l.takeWhile (fun c => !(c == 61)) = l := by
  induction l with
  | nil => rfl
  | cons a l ihl =>
      rw [List.takeWhile_cons]
      simp [hall a (List.mem_cons_self a l),
        ihl (fun c hcm => hall c (List.mem_cons_of_mem a hcm))]

/-- C8: `apply_persistent_params` injects a parsed `name=value` record
only through the store's default-injection entry point, which refuses to
touch a name that already has an explicitly set value — the explicitly
set parameters (and the stored default of any explicitly-set name) are
unchanged by applying any blob — and a record containing no `'='` is
skipped with no effect on the store and no error. -/
theorem apply_never_overrides {V : Type} (atof : List Nat → V) (st : ParamStore V)
    (blob : List Nat) :
    (applyBlob atof st blob).1.explicits = st.explicits ∧
    (∀ name, st.explicits.any (fun p => p.1 == name) = true →
      lookupDefault (applyBlob atof st blob).1 name = lookupDefault st name) ∧
    (∀ (sc : ParamStore V × Nat) (tok : List Nat), tok.contains 61 = false →
      applyToken atof sc tok = sc) := by
  refine ⟨?_, ?_, ?_⟩
  · unfold applyBlob
    exact foldl_applyToken_explicits atof _ _
  · intro name hex
    unfold applyBlob
    exact foldl_applyToken_defaults atof _ name _ hex
  · intro sc tok hc
    unfold applyToken
    have hall : ∀ c ∈ tok, (c == 61) = false := by
      intro c hcm
      by_contra hcc
      have hceq : c = 61 := by
        cases hb : (c == 61) with
        | true => exact eq_of_beq hb
        | false => exact absurd hb hcc
      subst hceq
      rw [List.contains_eq_any_beq] at hc
      have : tok.any (fun x => 61 == x) = true := by
        exact List.any_eq_true.mpr ⟨61, hcm, by simp⟩
      rw [this] at hc
      exact absurd hc (by simp)
    have htw : tok.takeWhile (fun c => !(c == 61)) = tok :=
      takeWhile_ne61_eq tok hall
    rw [splitEq, htw]
    simp

/-- Counterexample to C1 as stated: at `envNegativeSpace` the image is
byte-identical to the resident content over the aligned size, parameter
preservation is on, the serialized blob does not fit in
`page_size - aligned_size` (which is negative: 32 - 64), so the claim as
stated demands NO_CHANGE with zero erase calls — yet the run erases a
page and does not return NO_CHANGE, because the source compares the
space as an unsigned 32-bit value, treating the negative remainder as
ample space. -/
theorem negative_space_cex :
    envNegativeSpace.romfs = some (List.replicate 33 0, 33) ∧
    imageMatches (List.replicate 33 0) envNegativeSpace.mem envNegativeSpace.pageAddr0
      (alignUp32 33) = true ∧
    envNegativeSpace.saveParams = true ∧
    (get_persistent_params envNegativeSpace.insData envNegativeSpace.allocOracle).1 = true ∧
    ((envNegativeSpace.getpagesize 0 : Int) - (alignUp32 33 : Int) <
      ((get_persistent_params envNegativeSpace.insData
          envNegativeSpace.allocOracle).2.buf.length : Int)) ∧
    (flash_bootloader envNegativeSpace).1 ≠ FlashBootloader.NO_CHANGE ∧
    eraseCount (flash_bootloader envNegativeSpace).2 = 1 := by decide

/-- Counterexample to C2 as stated: on the `not-available` branch the
image buffer was never acquired and `AP_ROMFS::free` is not called, so
the release count is 0, not "exactly once on every outcome branch
including not-available". -/
theorem not_available_no_release_cex :
    (flash_bootloader envNoImage).1 = FlashBootloader.NOT_AVAILABLE ∧
    freeCount (flash_bootloader envNoImage).2 = 0 := by decide

/-- Counterexample to C4 as stated: at `envBlobAtEnd` the image write
succeeds and a non-empty 32-byte blob exists with aligned image size 32,
but no write call starts at `sector base + aligned_size` (offset 32);
the blob is written at offset `page_size - blob_length = 96 - 32 = 64`,
the end of page 0. -/
theorem blob_not_after_image_cex :
    (flash_bootloader envBlobAtEnd).1 = FlashBootloader.OK ∧
    alignUp32 30 = 32 ∧
    (get_persistent_params envBlobAtEnd.insData envBlobAtEnd.allocOracle).2.buf ≠ [] ∧
    (flash_bootloader envBlobAtEnd).2.countP
      (writeAt (envBlobAtEnd.pageAddr0 + alignUp32 30)) = 0 ∧
    FlashEvent.write (envBlobAtEnd.pageAddr0 + 64)
      (get_persistent_params envBlobAtEnd.insData envBlobAtEnd.allocOracle).2.buf ∈
      (flash_bootloader envBlobAtEnd).2 := by decide

/-- Witness for C1 at `envUpToDate`. -/
theorem flash_bootloader_uptodate_no_change_witness :
    (flash_bootloader envUpToDate).1 = FlashBootloader.NO_CHANGE ∧
    eraseCount (flash_bootloader envUpToDate).2 = 0 ∧
    writeCount (flash_bootloader envUpToDate).2 = 0 :=
  flash_bootloader_uptodate_no_change envUpToDate [3, 3] 2 rfl (by decide)
    (fun h => absurd h (by decide))

/-- Witness for C2 at `envNoImage` and `envUpToDate`. -/
theorem flash_bootloader_release_exactly_once_witness :
    freeCount (flash_bootloader envNoImage).2 = 0 ∧
    freeCount (flash_bootloader envUpToDate).2 = 1 :=
  ⟨(flash_bootloader_release_exactly_once envNoImage).1 rfl,
   (flash_bootloader_release_exactly_once envUpToDate).2 [3, 3] 2 rfl⟩

/-- Witness for C3: a device failing the first 9 writes and succeeding
on the 10th yields OK with 9 backoffs; one failing all 10 yields FAIL
with 10 writes and 10 backoffs. -/
theorem write_retry_bound_exact_witness :
    ((flash_bootloader envNinthWrite).1 = FlashBootloader.OK ∧
      delayCount (flash_bootloader envNinthWrite).2 = 9) ∧
    ((flash_bootloader envAllWritesFail).1 = FlashBootloader.FAIL ∧
      delayCount (flash_bootloader envAllWritesFail).2 = 10 ∧
      writeCount (flash_bootloader envAllWritesFail).2 = 10) :=
  ⟨(write_retry_bound_exact envNinthWrite [5] 1 rfl (by decide) (by decide)).1
      (by decide) (by decide),
   (write_retry_bound_exact envAllWritesFail [5] 1 rfl (by decide) (by decide)).2.1
      (by decide)⟩

/-- Witness for C4 at `envBlobAtEnd` (first write attempt succeeds). -/
theorem params_blob_written_at_end_witness :
    FlashEvent.write (envBlobAtEnd.pageAddr0 + (envBlobAtEnd.getpagesize 0 -
        (decisionStep envBlobAtEnd (List.replicate 30 1) (alignUp32 30)).2.1.length))
      (decisionStep envBlobAtEnd (List.replicate 30 1) (alignUp32 30)).2.1 ∈
      (flash_bootloader envBlobAtEnd).2 ∧
    (decisionStep envBlobAtEnd (List.replicate 30 1) (alignUp32 30)).2.1.take
      persistent_header.length = persistent_header :=
  params_blob_written_at_end envBlobAtEnd (List.replicate 30 1) 30 0 rfl (by decide)
    (by decide) (by decide) (fun i hi => absurd hi (Nat.not_lt_zero i)) (by decide)
    rfl (by decide) (by decide) (by decide)

/-- Witness for C5 at `envBlobAtEnd`, starting from a locked device. -/
theorem unlock_gate_scoped_witness :
    ((∃ pre mid post,
      (flash_bootloader envBlobAtEnd).2 = pre ++ [FlashEvent.keepUnlocked true] ++ mid ++
        [FlashEvent.keepUnlocked false] ++ post ∧
      pre.filter isUnlockEv = [] ∧ pre.filter isWriteEv = [] ∧
      mid.filter isUnlockEv = [] ∧
      post.filter isUnlockEv = [] ∧ post.filter isWriteEv = []) ∧
    (runTrace envBlobAtEnd ⟨memZero, false⟩ (flash_bootloader envBlobAtEnd).2).unlocked =
      false) ∧
    (∀ (env2 : Env) (st2 : FlashState),
      (runTrace env2 st2 (flash_bootloader env2).2).unlocked = false ∨
      (runTrace env2 st2 (flash_bootloader env2).2).unlocked = st2.unlocked) :=
  unlock_gate_scoped envBlobAtEnd (List.replicate 30 1) 30 ⟨memZero, false⟩ rfl
    (by decide) (by decide)

set_option maxRecDepth 8192 in
/-- Witness for C6 at `envNegativeSpace` (erase of page 0 fails). -/
theorem erase_phase_spec_witness :
    ∃ k,
      eraseEvents (eraseLoop envNegativeSpace (alignUp32 33) (alignUp32 33) 0 0).2 =
        (List.range k).map (fun i => FlashEvent.erasePage (i % 256)) ∧
      ((eraseLoop envNegativeSpace (alignUp32 33) (alignUp32 33) 0 0).1 = true →
        alignUp32 33 ≤ sumSizesMod envNegativeSpace 0 k) ∧
      ((eraseLoop envNegativeSpace (alignUp32 33) (alignUp32 33) 0 0).1 = false →
        (envNegativeSpace.getpagesize (k % 256) = 0 ∨
          (0 < k ∧ envNegativeSpace.eraseOk ((k - 1) % 256) = false)) ∧
        (flash_bootloader envNegativeSpace).1 = FlashBootloader.FAIL ∧
        writeCount (flash_bootloader envNegativeSpace).2 = 0) :=
  erase_phase_spec envNegativeSpace (List.replicate 33 0) 33 rfl (by decide) (by decide)

/-- Witness for C7: the empty configuration yields the empty signal, and
the blob serialized from the record `"x=1\n"` is non-empty, 32-aligned
and longer than the header. -/
theorem serialize_blob_invariants_witness :
    serializeBlob [] [] = [] ∧
    (serializeBlob [120, 61, 49, 10] []).length % 32 = 0 ∧
    persistent_header.length < (serializeBlob [120, 61, 49, 10] []).length :=
  ⟨(serialize_blob_invariants [] []).1 rfl,
   ((serialize_blob_invariants [120, 61, 49, 10] []).2.2 (by decide)).1,
   ((serialize_blob_invariants [120, 61, 49, 10] []).2.2 (by decide)).2⟩

/-- Witness for C8: applying a blob holding `x=1` and `y=2` to a store
where `x` is explicitly set leaves the explicit entries and the stored
default for `x` untouched, and a record with no `'='` is a no-op. -/
theorem apply_never_overrides_witness :
    (applyBlob (fun v => v.getD 0 0) (⟨[([120], 7)], []⟩ : ParamStore Nat)
        (persistent_header ++ [120, 61, 49, 10, 121, 61, 50, 10])).1.explicits =
      (⟨[([120], 7)], []⟩ : ParamStore Nat).explicits ∧
    lookupDefault (applyBlob (fun v => v.getD 0 0) (⟨[([120], 7)], []⟩ : ParamStore Nat)
        (persistent_header ++ [120, 61, 49, 10, 121, 61, 50, 10])).1 [120] =
      lookupDefault (⟨[([120], 7)], []⟩ : ParamStore Nat) [120] ∧
    applyToken (fun v => v.getD 0 0) ((⟨[([120], 7)], []⟩ : ParamStore Nat), 0)
      [104, 105] = ((⟨[([120], 7)], []⟩ : ParamStore Nat), 0) :=
  ⟨(apply_never_overrides (fun v => v.getD 0 0) (⟨[([120], 7)], []⟩ : ParamStore Nat)
      (persistent_header ++ [120, 61, 49, 10, 121, 61, 50, 10])).1,
   (apply_never_overrides (fun v => v.getD 0 0) (⟨[([120], 7)], []⟩ : ParamStore Nat)
      (persistent_header ++ [120, 61, 49, 10, 121, 61, 50, 10])).2.1 [120] (by decide),
   (apply_never_overrides (fun v => v.getD 0 0) (⟨[([120], 7)], []⟩ : ParamStore Nat)
      (persistent_header ++ [120, 61, 49, 10, 121, 61, 50, 10])).2.2
      ((⟨[([120], 7)], []⟩ : ParamStore Nat), 0) [104, 105] (by decide)⟩

/-- Witness for C10 at `envBlobAtEnd`: the image write succeeds on the
first attempt, the run reports OK, and the trailing blob write is in the
trace. -/
theorem blob_write_result_ignored_witness :
    (flash_bootloader envBlobAtEnd).1 = FlashBootloader.OK ∧
    FlashEvent.write (envBlobAtEnd.pageAddr0 + usub32 (envBlobAtEnd.getpagesize 0)
        (decisionStep envBlobAtEnd (List.replicate 30 1) (alignUp32 30)).2.1.length)
      (decisionStep envBlobAtEnd (List.replicate 30 1) (alignUp32 30)).2.1 ∈
      (flash_bootloader envBlobAtEnd).2 :=
  ⟨(blob_write_result_ignored envBlobAtEnd (List.replicate 30 1) 30 0 rfl (by decide)
      (by decide) (by decide) (fun i hi => absurd hi (Nat.not_lt_zero i)) (by decide)).1,
   (blob_write_result_ignored envBlobAtEnd (List.replicate 30 1) 30 0 rfl (by decide)
      (by decide) (by decide) (fun i hi => absurd hi (Nat.not_lt_zero i)) (by decide)).2
      rfl (by decide)⟩
